import Mathlib

/-
Verification of the trello-telegram-tracker state-diffing and
notification/pin-rotation core.

The definitions below are a shallow embedding of the Python source:
  - app/bot.py        check_for_completed_cards, notify_member_assignments
  - app/trello_api.py is_card_overdue
  - app/reports.py    get_user_tasks (per-card classification),
                      generate_weekly_stats_report (completed-this-week test)
  - app/storage.py    add_pinned_message, remove_pinned_message,
                      get_stored_pinned_messages
  - app/handlers.py   _send_report_with_pin

Timestamps are modelled as integers (seconds on a single timeline).
Python sets of member ids are modelled as deduplicated lists with
membership semantics.  A date string is modelled abstractly as either a
valid timestamp or a malformed string; datetime.fromisoformat either
returns the timestamp or raises, which we model with Option / Except.
-/

/-- A date string as it appears in a card JSON field: either parseable to
a timestamp or malformed. -/
inductive DateStr where
  | valid (t : Int)
  | malformed
deriving DecidableEq

/-- Models `datetime.fromisoformat(s.replace("Z", "+00:00"))`: returns the
timestamp for a well-formed string, and `none` where Python raises
`ValueError`. -/
def parseIso : DateStr → Option Int
  | DateStr.valid t => some t
  | DateStr.malformed => none

/-- One card as returned by the board snapshot client: id, containing list
id, assigned member ids, and the three optional date fields. -/
structure Card where
  cardId : String
  idList : String
  memberIds : List String
  due : Option DateStr
  start : Option DateStr
  lastActivity : Option DateStr
deriving DecidableEq

/-- Boolean test that `needle` occurs at the head of `haystack`
(character-wise). -/
def charsLeadWith : List Char → List Char → Bool
  | [], _ => true
  | _ :: _, [] => false
  | a :: as, b :: bs => a == b && charsLeadWith as bs

/-- Boolean substring test on character lists, modelling Python's
`needle in haystack` on strings. -/
def charsContain (needle : List Char) : List Char → Bool
  | [] => charsLeadWith needle []
  | b :: bs => charsLeadWith needle (b :: bs) || charsContain needle bs

/-- The characters of a string lowercased, modelling Python's
`str.lower()`. -/
def lowerChars (s : String) : List Char :=
  s.data.map Char.toLower

/-- Case-insensitive marker matching used throughout the source:
`any(name.lower() in list_name.lower() for name in markers)`. -/
def nameMatches (markers : List String) (listName : String) : Bool :=
  markers.any (fun m => charsContain (lowerChars m) (lowerChars listName))

/-- Models `list_names.get(card["idList"], "")`: lookup of a list's name by
its id, defaulting to the empty string. -/
def listNameOf : List (String × String) → String → String
  | [], _ => ""
  | (i, n) :: rest, listId => if i == listId then n else listNameOf rest listId

/-- Per-card entry of the change detector's `last_known_states` map. -/
structure CardState where
  completed : Bool
  listId : String
  members : List String
deriving DecidableEq

/-- The in-memory `last_known_states` dictionary, keyed by
`board_id + "_" + card_id`. -/
abbrev StateMap := List (String × CardState)

/-- Dictionary lookup on the state map. -/
def getState (k : String) : StateMap → Option CardState
  | [] => none
  | (k', v) :: rest => if k' == k then some v else getState k rest

/-- Dictionary assignment on the state map: replaces an existing binding
for the key in place, otherwise appends one. -/
def setState (k : String) (v : CardState) : StateMap → StateMap
  | [] => [(k, v)]
  | (k', v') :: rest =>
      if k' == k then (k, v) :: rest else (k', v') :: setState k v rest

/-- `card_key = "%s_%s" % (board_id, card["id"])`. -/
def cardKey (boardId cardId : String) : String :=
  boardId ++ "_" ++ cardId

/-- A notification attempt made by the change detector: the "Card
completed!" message or the "New assignments!" message, abstracted to the
machine-relevant payload. -/
inductive Event where
  | cardCompleted (cardId : String)
  | membersAssigned (cardId : String) (memberIds : List String)
deriving DecidableEq

/-- The id of the card an event is about. -/
def eventCardId : Event → String
  | Event.cardCompleted i => i
  | Event.membersAssigned i _ => i

/-- Recognizer for a completion event about a given card. -/
def isCompletionEventFor (i : String) : Event → Bool
  | Event.cardCompleted j => j == i
  | Event.membersAssigned _ _ => false

/-- Models `notify_member_assignments` (app/bot.py): keeps only the card
members whose id is among the newly assigned ids and sends one message
tagging them, or nothing if that filter is empty. -/
def notifyMemberAssignments (card : Card) (newIds : List String) : List Event :=
  let newMembers := card.memberIds.filter (fun i => newIds.contains i)
  if newMembers.isEmpty then [] else [Event.membersAssigned card.cardId newMembers]

/-- One iteration of the per-card loop of `check_for_completed_cards`
(app/bot.py lines 237-290): decides events for the card and updates
`last_known_states`.  Note that in the branch where the stored state is
already completed and the card is still in a done list, the source does
nothing at all (there is no else arm), so the map is returned unchanged. -/
def stepCard (doneNames : List String) (boardId : String)
    (listNames : List (String × String)) (states : StateMap) (card : Card) :
    StateMap × List Event :=
  let listName := listNameOf listNames card.idList
  let key := cardKey boardId card.cardId
  if nameMatches doneNames listName then
    match getState key states with
    | none =>
        (setState key ⟨true, card.idList, card.memberIds⟩ states, [])
    | some st =>
        if st.completed then (states, [])
        else
          (setState key ⟨true, card.idList, st.members⟩ states,
           [Event.cardCompleted card.cardId])
  else
    let currentMembers := card.memberIds.dedup
    let evs :=
      match getState key states with
      | some st =>
          let newIds :=
            currentMembers.filter (fun m => !(st.members.contains m))
          if newIds.isEmpty then [] else notifyMemberAssignments card newIds
      | none => []
    (setState key ⟨false, card.idList, currentMembers⟩ states, evs)

/-- One poll cycle of `check_for_completed_cards` over a board's card
snapshot, in iteration order, threading the state map and concatenating
the emitted events. -/
def pollBoard (doneNames : List String) (boardId : String)
    (listNames : List (String × String)) :
    StateMap → List Card → StateMap × List Event
  | states, [] => (states, [])
  | states, c :: cs =>
      let r := stepCard doneNames boardId listNames states c
      let rest := pollBoard doneNames boardId listNames r.1 cs
      (rest.1, r.2 ++ rest.2)

/-- Models `is_card_overdue` (app/trello_api.py lines 117-123): no due
date means not overdue; a present due date is parsed without any error
handling, so a malformed string makes the function raise, modelled as
`Except.error`. -/
def isCardOverdue (now : Int) (card : Card) : Except Unit Bool :=
  match card.due with
  | none => Except.ok false
  | some d =>
      match parseIso d with
      | none => Except.error ()
      | some t => Except.ok (decide (now > t))

/-- Outcome of the per-card classification in `get_user_tasks`. -/
inductive UserTaskCat where
  | overdueTask
  | currentTask
  | skipped
deriving DecidableEq

/-- Per-card classification of `get_user_tasks` (app/reports.py lines
78-139): done cards are skipped; the overdue check may raise (malformed
due string); otherwise an in-progress card is current unless its start
date parses to the future, or - with no start date - its due date parses
and `(due - now).days > 3` (Python floor division of the difference by
86400 seconds).  Parse failures inside the refinement are swallowed and
leave the card current. -/
def classifyUserCard (doneNames inProgressNames : List String) (now : Int)
    (listName : String) (card : Card) : Except Unit UserTaskCat :=
  if nameMatches doneNames listName then Except.ok UserTaskCat.skipped
  else
    match isCardOverdue now card with
    | Except.error e => Except.error e
    | Except.ok true => Except.ok UserTaskCat.overdueTask
    | Except.ok false =>
        if nameMatches inProgressNames listName then
          let shouldBeCurrent :=
            match card.start with
            | some s =>
                match parseIso s with
                | some st => !(decide (st > now))
                | none => true
            | none =>
                match card.due with
                | some d =>
                    match parseIso d with
                    | some dd => !(decide (Int.fdiv (dd - now) 86400 > 3))
                    | none => true
                | none => true
          if shouldBeCurrent then Except.ok UserTaskCat.currentTask
          else Except.ok UserTaskCat.skipped
        else Except.ok UserTaskCat.skipped

/-- The completed-this-week test of `generate_weekly_stats_report`
(app/reports.py lines 294-319): a card counts iff it sits in a
done-classified list, has a parseable `dateLastActivity`, and that
timestamp is at least `now - 7 days` (`last_activity >= week_start`); a
parse failure skips the card. -/
def completedThisWeek (doneNames : List String) (now : Int)
    (listName : String) (card : Card) : Bool :=
  nameMatches doneNames listName &&
    match card.lastActivity with
    | none => false
    | some d =>
        match parseIso d with
        | none => false
        | some t => decide (now - 7 * 86400 ≤ t)

/-- One entry of the `bot_pinned_messages.json` "messages" list. -/
structure PinRecord where
  chatId : String
  messageId : Nat
  pinnedAt : Nat
  messageUrl : String
deriving DecidableEq

/-- Models `Storage.add_pinned_message` (app/storage.py lines 78-102):
returns the store unchanged when a record with the same chat id and
message id already exists, otherwise appends a fresh record stamped with
the current time. -/
def addPinnedMessage (now : Nat) (msgs : List PinRecord) (chatId : String)
    (messageId : Nat) (messageUrl : String) : List PinRecord :=
  if msgs.any (fun m => m.chatId == chatId && m.messageId == messageId) then
    msgs
  else
    msgs ++ [⟨chatId, messageId, now, messageUrl⟩]

/-- Models `Storage.remove_pinned_message` (app/storage.py lines
109-117). -/
def removePinnedMessage (msgs : List PinRecord) (chatId : String)
    (messageId : Nat) : List PinRecord :=
  msgs.filter (fun m => !(m.chatId == chatId && m.messageId == messageId))

/-- Models `Storage.get_stored_pinned_messages` (app/storage.py lines
104-107). -/
def storedPinnedMessages (msgs : List PinRecord) (chatId : String) :
    List PinRecord :=
  msgs.filter (fun m => m.chatId == chatId)

/-- The message url built in `_send_report_with_pin` for a freshly sent
message. -/
def messageUrlFor (chatId : String) (messageId : Nat) : String :=
  let urlChatId := if chatId.startsWith "-100" then chatId.drop 4 else chatId
  "https://t.me/c/" ++ urlChatId ++ "/" ++ toString messageId

/-- Exogenous outcomes of the fallible chat-delivery steps of one
`_send_report_with_pin` call: whether each unpin attempt succeeds,
whether sending succeeds (and with which message id), and whether the pin
succeeds. -/
structure DeliveryEnv where
  unpinOk : String → Nat → Bool
  sendResult : Option Nat
  pinOk : Bool

/-- Models `_send_report_with_pin` (app/handlers.py lines 267-300)
restricted to its effect on the pinned-message store (the
previous-report-link step only edits the outgoing text).  It snapshots
the chat's stored records, removes each one whose unpin attempt succeeds
(a failed unpin leaves the record in place), aborts if sending fails, and
on a successful pin persists a new record for the sent message. -/
def sendReportWithPin (env : DeliveryEnv) (now : Nat)
    (msgs : List PinRecord) (chatId : String) : List PinRecord :=
  let stored := storedPinnedMessages msgs chatId
  let msgs1 := stored.foldl
    (fun acc m =>
      if env.unpinOk chatId m.messageId then
        removePinnedMessage acc chatId m.messageId
      else acc)
    msgs
  match env.sendResult with
  | none => msgs1
  | some mid =>
      if env.pinOk then
        addPinnedMessage now msgs1 chatId mid (messageUrlFor chatId mid)
      else msgs1

/-! ### State-map lemmas -/

theorem getState_setState_self (k : String) (v : CardState) (l : StateMap) :
    getState k (setState k v l) = some v := by
  induction l with
  | nil => simp [setState, getState]
  | cons p t ih =>
      obtain ⟨k₀, v₀⟩ := p
      by_cases hk : k₀ = k
      · subst hk
        simp [setState, getState]
      · simp [setState, getState, beq_iff_eq, hk, ih]

theorem getState_setState_other (k k' : String) (v : CardState) (l : StateMap)
    (h : k' ≠ k) : getState k' (setState k v l) = getState k' l := by
  induction l with
  | nil => simp [setState, getState, beq_iff_eq, Ne.symm h]
  | cons p t ih =>
      obtain ⟨k₀, v₀⟩ := p
      by_cases hk : k₀ = k
      · subst hk
        simp [setState, getState, beq_iff_eq, Ne.symm h]
      · by_cases hk' : k₀ = k'
        · subst hk'
          simp [setState, getState, beq_iff_eq, hk]
        · simp [setState, getState, beq_iff_eq, hk, hk', ih]

theorem cardKey_inj {b a c : String} (h : cardKey b a = cardKey b c) : a = c := by
  have hd := congrArg String.data h
  simp only [cardKey, String.data_append, List.append_assoc] at hd
  exact String.ext (List.append_cancel_left (List.append_cancel_left hd))

/-! ### Per-card step lemmas -/

theorem stepCard_done_completed (dn : List String) (b : String)
    (ln : List (String × String)) (states : StateMap) (c : Card)
    (st : CardState) (hst : getState (cardKey b c.cardId) states = some st)
    (hc : st.completed = true)
    (hd : nameMatches dn (listNameOf ln c.idList) = true) :
    stepCard dn b ln states c = (states, []) := by
  simp [stepCard, hd, hst, hc]

theorem stepCard_done_new (dn : List String) (b : String)
    (ln : List (String × String)) (states : StateMap) (c : Card)
    (hst : getState (cardKey b c.cardId) states = none)
    (hd : nameMatches dn (listNameOf ln c.idList) = true) :
    stepCard dn b ln states c =
      (setState (cardKey b c.cardId) ⟨true, c.idList, c.memberIds⟩ states, []) := by
  simp [stepCard, hd, hst]

theorem stepCard_done_transition (dn : List String) (b : String)
    (ln : List (String × String)) (states : StateMap) (c : Card)
    (st : CardState) (hst : getState (cardKey b c.cardId) states = some st)
    (hc : st.completed = false)
    (hd : nameMatches dn (listNameOf ln c.idList) = true) :
    stepCard dn b ln states c =
      (setState (cardKey b c.cardId) ⟨true, c.idList, st.members⟩ states,
       [Event.cardCompleted c.cardId]) := by
  simp [stepCard, hd, hst, hc]

theorem stepCard_not_done (dn : List String) (b : String)
    (ln : List (String × String)) (states : StateMap) (c : Card)
    (hd : nameMatches dn (listNameOf ln c.idList) = false) :
    stepCard dn b ln states c =
      (setState (cardKey b c.cardId) ⟨false, c.idList, c.memberIds.dedup⟩ states,
       match getState (cardKey b c.cardId) states with
       | some st =>
           let newIds :=
             c.memberIds.dedup.filter (fun m => !(st.members.contains m))
           if newIds.isEmpty then [] else notifyMemberAssignments c newIds
       | none => []) := by
  simp [stepCard, hd]

theorem stepCard_event_cardId (dn : List String) (b : String)
    (ln : List (String × String)) (states : StateMap) (c : Card) (e : Event)
    (he : e ∈ (stepCard dn b ln states c).2) : eventCardId e = c.cardId := by
  by_cases hd : nameMatches dn (listNameOf ln c.idList) = true
  · cases hst : getState (cardKey b c.cardId) states with
    | none => rw [stepCard_done_new dn b ln states c hst hd] at he; simp at he
    | some st =>
        by_cases hc : st.completed = true
        · rw [stepCard_done_completed dn b ln states c st hst hc hd] at he
          simp at he
        · simp only [Bool.not_eq_true] at hc
          rw [stepCard_done_transition dn b ln states c st hst hc hd] at he
          simp at he
          simp [he, eventCardId]
  · simp only [Bool.not_eq_true] at hd
    rw [stepCard_not_done dn b ln states c hd] at he
    cases hst : getState (cardKey b c.cardId) states with
    | none => rw [hst] at he; simp at he
    | some st =>
        rw [hst] at he
        simp only [notifyMemberAssignments] at he
        split at he
        · simp at he
        · split at he
          · simp at he
          · simp at he
            simp [he, eventCardId]

theorem stepCard_getState_other (dn : List String) (b : String)
    (ln : List (String × String)) (states : StateMap) (c : Card) (k : String)
    (hk : k ≠ cardKey b c.cardId) :
    getState k (stepCard dn b ln states c).1 = getState k states := by
  by_cases hd : nameMatches dn (listNameOf ln c.idList) = true
  · cases hst : getState (cardKey b c.cardId) states with
    | none =>
        rw [stepCard_done_new dn b ln states c hst hd]
        exact getState_setState_other _ _ _ _ hk
    | some st =>
        by_cases hc : st.completed = true
        · rw [stepCard_done_completed dn b ln states c st hst hc hd]
        · simp only [Bool.not_eq_true] at hc
          rw [stepCard_done_transition dn b ln states c st hst hc hd]
          exact getState_setState_other _ _ _ _ hk
  · simp only [Bool.not_eq_true] at hd
    rw [stepCard_not_done dn b ln states c hd]
    exact getState_setState_other _ _ _ _ hk

/-! ### Poll-cycle lemmas -/

theorem isCompletionEventFor_eq_false (i : String) (e : Event)
    (h : eventCardId e ≠ i) : isCompletionEventFor i e = false := by
  cases e with
  | cardCompleted j => simp only [eventCardId] at h; simp [isCompletionEventFor, h]
  | membersAssigned j m => simp [isCompletionEventFor]

theorem pollBoard_frame (dn : List String) (b : String)
    (ln : List (String × String)) (cards : List Card) (states : StateMap)
    (i : String) (h : ∀ x ∈ cards, x.cardId ≠ i) :
    getState (cardKey b i) (pollBoard dn b ln states cards).1 =
      getState (cardKey b i) states ∧
    (pollBoard dn b ln states cards).2.filter (isCompletionEventFor i) = [] := by
  induction cards generalizing states with
  | nil => simp [pollBoard]
  | cons x rest ih =>
      have hx : x.cardId ≠ i := h x (List.mem_cons_self x rest)
      have hkey : cardKey b i ≠ cardKey b x.cardId := by
        intro hh
        exact hx (cardKey_inj hh).symm
      have hframe := stepCard_getState_other dn b ln states x (cardKey b i) hkey
      have hrest := ih (stepCard dn b ln states x).1
        (fun y hy => h y (List.mem_cons_of_mem x hy))
      refine ⟨?_, ?_⟩
      · show getState (cardKey b i)
          (pollBoard dn b ln (stepCard dn b ln states x).1 rest).1 = _
        rw [hrest.1, hframe]
      · show List.filter (isCompletionEventFor i)
          ((stepCard dn b ln states x).2 ++
            (pollBoard dn b ln (stepCard dn b ln states x).1 rest).2) = []
        rw [List.filter_append, hrest.2, List.append_nil]
        rw [List.filter_eq_nil_iff]
        intro e he
        have := stepCard_event_cardId dn b ln states x e he
        simp [isCompletionEventFor_eq_false i e (this ▸ hx)]

theorem pollBoard_done_stable (dn : List String) (b : String)
    (ln : List (String × String)) (cards : List Card) (states : StateMap)
    (i : String) (st : CardState)
    (hst : getState (cardKey b i) states = some st)
    (hc : st.completed = true)
    (hall : ∀ x ∈ cards, x.cardId = i →
      nameMatches dn (listNameOf ln x.idList) = true) :
    getState (cardKey b i) (pollBoard dn b ln states cards).1 = some st ∧
    (pollBoard dn b ln states cards).2.filter (isCompletionEventFor i) = [] := by
  induction cards generalizing states with
  | nil => simpa [pollBoard] using hst
  | cons x rest ih =>
      by_cases hx : x.cardId = i
      · have hd : nameMatches dn (listNameOf ln x.idList) = true :=
          hall x (List.mem_cons_self x rest) hx
        have hstx : getState (cardKey b x.cardId) states = some st := by
          rw [hx]; exact hst
        have hstep := stepCard_done_completed dn b ln states x st hstx hc hd
        have hrest := ih states hst
          (fun y hy hyid => hall y (List.mem_cons_of_mem x hy) hyid)
        refine ⟨?_, ?_⟩
        · show getState (cardKey b i)
            (pollBoard dn b ln (stepCard dn b ln states x).1 rest).1 = some st
          rw [hstep]
          exact hrest.1
        · show List.filter (isCompletionEventFor i)
            ((stepCard dn b ln states x).2 ++
              (pollBoard dn b ln (stepCard dn b ln states x).1 rest).2) = []
          rw [hstep]
          simpa using hrest.2
      · have hkey : cardKey b i ≠ cardKey b x.cardId := by
          intro hh
          exact hx (cardKey_inj hh.symm)
        have hframe := stepCard_getState_other dn b ln states x (cardKey b i) hkey
        have hst' : getState (cardKey b i) (stepCard dn b ln states x).1 = some st := by
          rw [hframe]; exact hst
        have hrest := ih (stepCard dn b ln states x).1 hst'
          (fun y hy hyid => hall y (List.mem_cons_of_mem x hy) hyid)
        refine ⟨hrest.1, ?_⟩
        show List.filter (isCompletionEventFor i)
          ((stepCard dn b ln states x).2 ++
            (pollBoard dn b ln (stepCard dn b ln states x).1 rest).2) = []
        rw [List.filter_append, hrest.2, List.append_nil, List.filter_eq_nil_iff]
        intro e he
        have hid := stepCard_event_cardId dn b ln states x e he
        have : eventCardId e ≠ i := by rw [hid]; exact hx
        simp [isCompletionEventFor_eq_false i e this]

theorem pollBoard_transition (dn : List String) (b : String)
    (ln : List (String × String)) (cards : List Card) (states : StateMap)
    (c : Card) (st : CardState)
    (hfilter : cards.filter (fun x => x.cardId == c.cardId) = [c])
    (hst : getState (cardKey b c.cardId) states = some st)
    (hc : st.completed = false)
    (hd : nameMatches dn (listNameOf ln c.idList) = true) :
    (pollBoard dn b ln states cards).2.filter (isCompletionEventFor c.cardId) =
      [Event.cardCompleted c.cardId] ∧
    getState (cardKey b c.cardId) (pollBoard dn b ln states cards).1 =
      some ⟨true, c.idList, st.members⟩ := by
  induction cards generalizing states with
  | nil => simp at hfilter
  | cons x rest ih =>
      by_cases hx : x.cardId = c.cardId
      · have hpx : (x.cardId == c.cardId) = true := by simp [hx]
        simp only [List.filter_cons, hpx, if_true, List.cons.injEq] at hfilter
        have hxc : x = c := hfilter.1
        have hrestnil : rest.filter (fun y => y.cardId == c.cardId) = [] :=
          hfilter.2
        have hrestne : ∀ y ∈ rest, y.cardId ≠ c.cardId := by
          intro y hy
          have := List.filter_eq_nil_iff.mp hrestnil y hy
          simpa using this
        subst hxc
        have hstep := stepCard_done_transition dn b ln states x st hst hc hd
        have hframe := pollBoard_frame dn b ln rest
          (stepCard dn b ln states x).1 x.cardId hrestne
        refine ⟨?_, ?_⟩
        · show List.filter (isCompletionEventFor x.cardId)
            ((stepCard dn b ln states x).2 ++
              (pollBoard dn b ln (stepCard dn b ln states x).1 rest).2) =
            [Event.cardCompleted x.cardId]
          rw [List.filter_append, hframe.2, List.append_nil, hstep]
          simp [isCompletionEventFor]
        · show getState (cardKey b x.cardId)
            (pollBoard dn b ln (stepCard dn b ln states x).1 rest).1 = _
          rw [hframe.1, hstep]
          exact getState_setState_self _ _ _
      · have hpx : (x.cardId == c.cardId) = false := by simp [hx]
        simp only [List.filter_cons, hpx, Bool.false_eq_true, if_false] at hfilter
        have hkey : cardKey b c.cardId ≠ cardKey b x.cardId := by
          intro hh
          exact hx (cardKey_inj hh.symm)
        have hframe := stepCard_getState_other dn b ln states x (cardKey b c.cardId) hkey
        have hst' : getState (cardKey b c.cardId)
            (stepCard dn b ln states x).1 = some st := by rw [hframe]; exact hst
        have hrest := ih (stepCard dn b ln states x).1 hfilter hst'
        refine ⟨?_, hrest.2⟩
        show List.filter (isCompletionEventFor c.cardId)
          ((stepCard dn b ln states x).2 ++
            (pollBoard dn b ln (stepCard dn b ln states x).1 rest).2) = _
        rw [List.filter_append, hrest.1]
        have hnil : (stepCard dn b ln states x).2.filter
            (isCompletionEventFor c.cardId) = [] := by
          rw [List.filter_eq_nil_iff]
          intro e he
          have hid := stepCard_event_cardId dn b ln states x e he
          have : eventCardId e ≠ c.cardId := by rw [hid]; exact hx
          simp [isCompletionEventFor_eq_false c.cardId e this]
        rw [hnil, List.nil_append]

/-! ### Pinned-store lemmas -/

theorem mem_removePinnedMessage {r : PinRecord} {msgs : List PinRecord}
    {c : String} {m : Nat} :
    r ∈ removePinnedMessage msgs c m ↔
      r ∈ msgs ∧ ¬(r.chatId = c ∧ r.messageId = m) := by
  simp [removePinnedMessage, List.mem_filter, beq_iff_eq]
  intro _
  tauto

theorem mem_foldl_remove (c : String) (stored : List PinRecord) :
    ∀ (acc : List PinRecord) (r : PinRecord),
      r ∈ stored.foldl (fun a m => removePinnedMessage a c m.messageId) acc →
      r ∈ acc ∧ ∀ m ∈ stored, ¬(r.chatId = c ∧ r.messageId = m.messageId) := by
  induction stored with
  | nil =>
      intro acc r h
      simp only [List.foldl_nil] at h
      exact ⟨h, by intro m hm; simp at hm⟩
  | cons m rest ih =>
      intro acc r h
      simp only [List.foldl_cons] at h
      have h2 := ih (removePinnedMessage acc c m.messageId) r h
      have h3 := mem_removePinnedMessage.mp h2.1
      refine ⟨h3.1, ?_⟩
      intro m' hm'
      rcases List.mem_cons.mp hm' with h4 | h4
      · subst h4
        exact h3.2
      · exact h2.2 m' h4

/-! ### Integer date-window lemma -/

theorem pyDays_gt_three_iff (d : Int) : (3 < Int.fdiv d 86400) ↔ 4 * 86400 ≤ d := by
  rw [Int.fdiv_eq_ediv d (by norm_num)]
  have h34 : (3 : Int) < d / 86400 ↔ 4 ≤ d / 86400 := by omega
  rw [h34, Int.le_ediv_iff_mul_le (by norm_num)]

/-! ### Member-diff membership helper -/

theorem mem_newIds_iff (c : Card) (prior : List String) (m : String) :
    m ∈ c.memberIds.dedup.filter (fun x => !(prior.contains x)) ↔
      m ∈ c.memberIds ∧ m ∉ prior := by
  simp [List.mem_filter, List.mem_dedup]

theorem sendReportWithPin_clears_chat (env : DeliveryEnv) (msgs : List PinRecord)
    (chatId : String) (h : ∀ c m, env.unpinOk c m = true) :
    storedPinnedMessages
      ((storedPinnedMessages msgs chatId).foldl
        (fun acc m =>
          if env.unpinOk chatId m.messageId then
            removePinnedMessage acc chatId m.messageId
          else acc)
        msgs) chatId = [] := by
  have hfun : (fun (acc : List PinRecord) (m : PinRecord) =>
      if env.unpinOk chatId m.messageId then
        removePinnedMessage acc chatId m.messageId
      else acc) =
      fun acc m => removePinnedMessage acc chatId m.messageId := by
    funext acc m
    rw [h chatId m.messageId]
    simp
  rw [hfun]
  unfold storedPinnedMessages
  rw [List.filter_eq_nil_iff]
  intro r hr hchat
  have hmem := mem_foldl_remove chatId (msgs.filter (fun m => m.chatId == chatId))
    msgs r hr
  have hrchat : r.chatId = chatId := by simpa [beq_iff_eq] using hchat
  have hrstored : r ∈ msgs.filter (fun m => m.chatId == chatId) :=
    List.mem_filter.mpr ⟨hmem.1, by simp [beq_iff_eq, hrchat]⟩
  exact hmem.2 r hrstored ⟨hrchat, rfl⟩

/-! ### Claim theorems -/

/-- C1: a card with a prior persisted not-completed state, observed (exactly
once) in a done-classified list at a poll, yields exactly one CardCompleted
event at that poll; and any subsequent poll in which every observation of
that card is done-classified yields no further CardCompleted event, the
card's state staying marked completed. -/
theorem c1_completion_edge_triggered
    (dn : List String) (b : String) (ln : List (String × String))
    (states : StateMap) (c : Card) (cards : List Card) (st : CardState)
    (hst : getState (cardKey b c.cardId) states = some st)
    (hnc : st.completed = false)
    (hd : nameMatches dn (listNameOf ln c.idList) = true)
    (honce : cards.filter (fun x => x.cardId == c.cardId) = [c]) :
    ((pollBoard dn b ln states cards).2.filter
        (isCompletionEventFor c.cardId)).length = 1 ∧
    ∀ cards2 : List Card,
      (∀ x ∈ cards2, x.cardId = c.cardId →
        nameMatches dn (listNameOf ln x.idList) = true) →
      (pollBoard dn b ln (pollBoard dn b ln states cards).1 cards2).2.filter
        (isCompletionEventFor c.cardId) = [] := by
  have h1 := pollBoard_transition dn b ln cards states c st honce hst hnc hd
  refine ⟨by rw [h1.1]; rfl, ?_⟩
  intro cards2 hall
  have h2 := pollBoard_done_stable dn b ln cards2
    (pollBoard dn b ln states cards).1 c.cardId
    ⟨true, c.idList, st.members⟩ h1.2 rfl hall
  exact h2.2

theorem c1_witness :
    ((pollBoard ["done"] "b" [("l1", "Done"), ("l0", "Doing")]
        [("b_c1", ⟨false, "l0", []⟩)]
        [⟨"c1", "l1", [], none, none, none⟩]).2.filter
        (isCompletionEventFor "c1")).length = 1 ∧
    (pollBoard ["done"] "b" [("l1", "Done"), ("l0", "Doing")]
        (pollBoard ["done"] "b" [("l1", "Done"), ("l0", "Doing")]
          [("b_c1", ⟨false, "l0", []⟩)]
          [⟨"c1", "l1", [], none, none, none⟩]).1
        [⟨"c1", "l1", [], none, none, none⟩]).2.filter
        (isCompletionEventFor "c1") = [] := by
  have h := c1_completion_edge_triggered ["done"] "b"
    [("l1", "Done"), ("l0", "Doing")] [("b_c1", ⟨false, "l0", []⟩)]
    ⟨"c1", "l1", [], none, none, none⟩
    [⟨"c1", "l1", [], none, none, none⟩] ⟨false, "l0", []⟩
    (by decide) rfl (by decide) (by decide)
  exact ⟨h.1, h.2 [⟨"c1", "l1", [], none, none, none⟩] (by decide)⟩

/-- C2: a card observed for the first time (no entry in last_known_states)
while already in a done-classified list emits no event; its state is seeded
as completed with the observed list id and member list. -/
theorem c2_cold_start_silence
    (dn : List String) (b : String) (ln : List (String × String))
    (states : StateMap) (c : Card)
    (hnone : getState (cardKey b c.cardId) states = none)
    (hd : nameMatches dn (listNameOf ln c.idList) = true) :
    (stepCard dn b ln states c).2 = [] ∧
    getState (cardKey b c.cardId) (stepCard dn b ln states c).1 =
      some ⟨true, c.idList, c.memberIds⟩ := by
  rw [stepCard_done_new dn b ln states c hnone hd]
  exact ⟨rfl, getState_setState_self _ _ _⟩

theorem c2_witness :
    (stepCard ["done"] "b" [("l1", "Done")] []
      ⟨"c1", "l1", ["A"], none, none, none⟩).2 = [] ∧
    getState "b_c1"
      (stepCard ["done"] "b" [("l1", "Done")] []
        ⟨"c1", "l1", ["A"], none, none, none⟩).1 =
      some ⟨true, "l1", ["A"]⟩ :=
  c2_cold_start_silence ["done"] "b" [("l1", "Done")] []
    ⟨"c1", "l1", ["A"], none, none, none⟩ (by decide) (by decide)

/-- C3 counterexample: starting from an empty store, a first publication
whose send and pin succeed leaves one record; a second publication whose
unpin attempt fails but whose send and pin succeed leaves two records for
the chat, violating the at-most-one invariant as claimed. -/
theorem c3_counterexample :
    (storedPinnedMessages
      (sendReportWithPin ⟨fun _ _ => false, some 2, true⟩ 20
        (sendReportWithPin ⟨fun _ _ => true, some 1, true⟩ 10 [] "c") "c")
      "c").length = 2 := by decide

/-- C3 amended: after any publication in which every unpin attempt
succeeds (sending and pinning may still fail), at most one pinned record
for the chat remains, whatever the starting store; hence any sequence of
such publications preserves the at-most-one invariant. -/
theorem c3_amended_at_most_one_record (env : DeliveryEnv) (now : Nat)
    (msgs : List PinRecord) (chatId : String)
    (h : ∀ c m, env.unpinOk c m = true) :
    (storedPinnedMessages (sendReportWithPin env now msgs chatId)
      chatId).length ≤ 1 := by
  have hclear := sendReportWithPin_clears_chat env msgs chatId h
  unfold sendReportWithPin
  cases hs : env.sendResult with
  | none =>
      simp only []
      rw [hclear]
      simp
  | some mid =>
      simp only []
      by_cases hp : env.pinOk = true
      · rw [if_pos hp]
        unfold addPinnedMessage
        by_cases hdup : ((storedPinnedMessages msgs chatId).foldl
            (fun acc m =>
              if env.unpinOk chatId m.messageId then
                removePinnedMessage acc chatId m.messageId
              else acc)
            msgs).any (fun m => m.chatId == chatId && m.messageId == mid) = true
        · rw [if_pos hdup, hclear]
          simp
        · rw [if_neg hdup]
          unfold storedPinnedMessages at hclear ⊢
          rw [List.filter_append, hclear]
          simp
      · rw [if_neg hp, hclear]
        simp

theorem c3_witness :
    (storedPinnedMessages
      (sendReportWithPin ⟨fun _ _ => true, some 5, true⟩ 0
        [⟨"c", 1, 0, "u"⟩, ⟨"c", 2, 0, "u"⟩] "c") "c").length ≤ 1 :=
  c3_amended_at_most_one_record ⟨fun _ _ => true, some 5, true⟩ 0
    [⟨"c", 1, 0, "u"⟩, ⟨"c", 2, 0, "u"⟩] "c" (fun _ _ => rfl)

/-- C4: for a card with a prior persisted not-completed state observed
still not done, a MembersAssigned notification is emitted iff the set
difference of current members minus prior members is non-empty, and every
emitted notification carries exactly that set difference (as a set of
member ids); shrinking or unchanged membership emits nothing. -/
theorem c4_members_assigned_iff
    (dn : List String) (b : String) (ln : List (String × String))
    (states : StateMap) (c : Card) (st : CardState)
    (hst : getState (cardKey b c.cardId) states = some st)
    (hnc : st.completed = false)
    (hnd : nameMatches dn (listNameOf ln c.idList) = false) :
    ((stepCard dn b ln states c).2 ≠ [] ↔
      ∃ m, m ∈ c.memberIds ∧ m ∉ st.members) ∧
    ∀ e ∈ (stepCard dn b ln states c).2, ∃ ids,
      e = Event.membersAssigned c.cardId ids ∧
      ∀ m, (m ∈ ids ↔ m ∈ c.memberIds ∧ m ∉ st.members) := by
  rw [stepCard_not_done dn b ln states c hnd, hst]
  simp only []
  by_cases hemp :
      (c.memberIds.dedup.filter (fun m => !(st.members.contains m))).isEmpty = true
  · rw [if_pos hemp]
    have hnil := List.isEmpty_iff.mp hemp
    constructor
    · simp only [ne_eq, not_true_eq_false, false_iff]
      rintro ⟨m, hm1, hm2⟩
      have : m ∈ c.memberIds.dedup.filter (fun x => !(st.members.contains x)) :=
        (mem_newIds_iff c st.members m).mpr ⟨hm1, hm2⟩
      rw [hnil] at this
      simp at this
    · intro e he
      simp at he
  · rw [if_neg hemp]
    have hne : c.memberIds.dedup.filter (fun m => !(st.members.contains m)) ≠ [] := by
      intro hh
      rw [hh] at hemp
      simp at hemp
    obtain ⟨m0, hm0⟩ := List.exists_mem_of_ne_nil _ hne
    have hm0' := (mem_newIds_iff c st.members m0).mp hm0
    have hnm : (c.memberIds.filter (fun i =>
        (c.memberIds.dedup.filter (fun m => !(st.members.contains m))).contains i)) ≠ [] := by
      intro hh
      have : m0 ∈ c.memberIds.filter (fun i =>
          (c.memberIds.dedup.filter (fun m => !(st.members.contains m))).contains i) := by
        rw [List.mem_filter]
        refine ⟨hm0'.1, ?_⟩
        simpa using hm0
      rw [hh] at this
      simp at this
    unfold notifyMemberAssignments
    simp only []
    rw [if_neg (by simpa [List.isEmpty_iff] using hnm)]
    constructor
    · simp only [ne_eq, List.cons_ne_self]
      constructor
      · intro _
        exact ⟨m0, hm0'⟩
      · intro _
        simp
    · intro e he
      simp only [List.mem_singleton] at he
      refine ⟨_, he, ?_⟩
      intro m
      rw [List.mem_filter]
      constructor
      · rintro ⟨h1, h2⟩
        have : m ∈ c.memberIds.dedup.filter (fun x => !(st.members.contains x)) := by
          simpa using h2
        exact (mem_newIds_iff c st.members m).mp this
      · rintro ⟨h1, h2⟩
        refine ⟨h1, ?_⟩
        simpa using (mem_newIds_iff c st.members m).mpr ⟨h1, h2⟩

theorem c4_witness :
    ((stepCard ["done"] "b" [("l0", "Doing")]
        [("b_c1", ⟨false, "l0", ["A"]⟩)]
        ⟨"c1", "l0", ["A", "B"], none, none, none⟩).2 ≠ [] ↔
      ∃ m, m ∈ ["A", "B"] ∧ m ∉ ["A"]) ∧
    ∀ e ∈ (stepCard ["done"] "b" [("l0", "Doing")]
        [("b_c1", ⟨false, "l0", ["A"]⟩)]
        ⟨"c1", "l0", ["A", "B"], none, none, none⟩).2, ∃ ids,
      e = Event.membersAssigned "c1" ids ∧
      ∀ m, (m ∈ ids ↔ m ∈ ["A", "B"] ∧ m ∉ ["A"]) :=
  c4_members_assigned_iff ["done"] "b" [("l0", "Doing")]
    [("b_c1", ⟨false, "l0", ["A"]⟩)]
    ⟨"c1", "l0", ["A", "B"], none, none, none⟩ ⟨false, "l0", ["A"]⟩
    (by decide) rfl (by decide)

/-- C5 counterexample: a non-done, non-overdue in-progress card with no
start date and a due date 3 days and 1 hour after now (262800 seconds,
strictly more than 3 days = 259200 seconds) is classified Current by the
code, not Future as the claim states. -/
theorem c5_counterexample :
    classifyUserCard ["done"] ["progress"] 0 "In Progress"
      ⟨"c", "l", [], some (DateStr.valid 262800), none, none⟩ =
      Except.ok UserTaskCat.currentTask ∧
    (3 * 86400 : Int) < 262800 := by
  constructor
  · rfl
  · norm_num

/-- C5 amended: for a non-done, non-overdue card in an in-progress list
with no start date but a due date, the personal-task classifier excludes
the card from Current (Future) iff the due date is at least 4 whole days
(4 * 86400 seconds) after now - Python's `(due - now).days > 3` with floor
division - and classifies it Current otherwise. -/
theorem c5_amended_four_day_window (dn ipn : List String) (now : Int)
    (listName : String) (card : Card) (t : Int)
    (hnd : nameMatches dn listName = false)
    (hip : nameMatches ipn listName = true)
    (hns : card.start = none)
    (hdue : card.due = some (DateStr.valid t))
    (hnov : now ≤ t) :
    classifyUserCard dn ipn now listName card =
      Except.ok (if 4 * 86400 ≤ t - now then UserTaskCat.skipped
                 else UserTaskCat.currentTask) := by
  unfold classifyUserCard isCardOverdue
  rw [hnd, hdue, hns]
  simp only [parseIso]
  have hov : ¬(now > t) := not_lt.mpr hnov
  simp only [Bool.false_eq_true, if_false, decide_eq_true_eq, hov,
    decide_eq_false_iff_not, not_false_eq_true, hip, if_true]
  by_cases hwin : 4 * 86400 ≤ t - now
  · have h3 : 3 < Int.fdiv (t - now) 86400 := (pyDays_gt_three_iff (t - now)).mpr hwin
    have hwin' : (345600 : Int) ≤ t - now := by linarith
    simp [h3, hwin']
  · have h3 : ¬(3 < Int.fdiv (t - now) 86400) := by
      intro hh
      exact hwin ((pyDays_gt_three_iff (t - now)).mp hh)
    have hwin' : ¬((345600 : Int) ≤ t - now) := by
      intro hh
      exact hwin (by linarith)
    simp [h3, hwin']

theorem c5_witness :
    classifyUserCard ["done"] ["progress"] 0 "In Progress"
      ⟨"c", "l", [], some (DateStr.valid (5 * 86400)), none, none⟩ =
      Except.ok (if 4 * 86400 ≤ (5 * 86400 : Int) - 0 then UserTaskCat.skipped
                 else UserTaskCat.currentTask) :=
  c5_amended_four_day_window ["done"] ["progress"] 0 "In Progress"
    ⟨"c", "l", [], some (DateStr.valid (5 * 86400)), none, none⟩ (5 * 86400)
    (by decide) (by decide) rfl rfl (by norm_num)

/-- C6 counterexample: the overdue check on a card whose due date string is
present but malformed does not return a value - it raises
(datetime.fromisoformat has no error handling in is_card_overdue),
contradicting the claim that classification never aborts. -/
theorem c6_counterexample :
    isCardOverdue 0 ⟨"c", "l", [], some DateStr.malformed, none, none⟩ =
      Except.error () := rfl

/-- C6 amended: inside get_user_tasks's current/future refinement a
malformed start date string is treated as absent and the card fails open
to Current; but is_card_overdue raises on a present malformed due string,
aborting that board's classification (caught by the per-board handler). -/
theorem c6_amended_malformed_dates :
    (∀ (dn ipn : List String) (now : Int) (listName : String) (card : Card),
      nameMatches dn listName = false →
      nameMatches ipn listName = true →
      card.due = none →
      card.start = some DateStr.malformed →
      classifyUserCard dn ipn now listName card =
        Except.ok UserTaskCat.currentTask) ∧
    (∀ (now : Int) (card : Card),
      card.due = some DateStr.malformed →
      isCardOverdue now card = Except.error ()) := by
  constructor
  · intro dn ipn now listName card hnd hip hdueN hstart
    unfold classifyUserCard isCardOverdue
    rw [hnd, hdueN, hstart]
    simp [parseIso, hip]
  · intro now card hdue
    unfold isCardOverdue
    rw [hdue]
    rfl

theorem c6_witness :
    classifyUserCard ["done"] ["progress"] 0 "In Progress"
      ⟨"c", "l", [], none, some DateStr.malformed, none⟩ =
      Except.ok UserTaskCat.currentTask ∧
    isCardOverdue 0 ⟨"c2", "l", [], some DateStr.malformed, none, none⟩ =
      Except.error () :=
  ⟨c6_amended_malformed_dates.1 ["done"] ["progress"] 0 "In Progress"
    ⟨"c", "l", [], none, some DateStr.malformed, none⟩
    (by decide) (by decide) rfl rfl,
   c6_amended_malformed_dates.2 0
    ⟨"c2", "l", [], some DateStr.malformed, none, none⟩ rfl⟩

/-- C7 counterexample: a done card whose last_activity timestamp is one day
in the future of report generation (86400 with now = 0) is counted as
completed this week by the code, although it does not lie in the claimed
window from now - 7 days up to now. -/
theorem c7_counterexample :
    completedThisWeek ["done"] 0 "Done"
      ⟨"c", "l1", [], none, none, some (DateStr.valid 86400)⟩ = true ∧
    ¬((86400 : Int) ≤ 0) := by
  constructor
  · decide
  · norm_num

/-- C7 amended: the weekly digest counts a card as completed this week iff
it is in a done-classified list and its last_activity parses to a
timestamp at least now - 7 days (the lower boundary is inclusive); no
upper bound at now is enforced. -/
theorem c7_amended_window_iff (dn : List String) (now : Int)
    (listName : String) (card : Card) :
    completedThisWeek dn now listName card = true ↔
      (nameMatches dn listName = true ∧
       ∃ t, card.lastActivity = some (DateStr.valid t) ∧
         now - 7 * 86400 ≤ t) := by
  unfold completedThisWeek
  cases hla : card.lastActivity with
  | none => simp
  | some d =>
      cases d with
      | valid t => simp [parseIso]
      | malformed => simp [parseIso]

/-- C8 counterexample: a card whose stored state is completed with list id
"lOld", observed still done but in list "l1", leaves the state map fully
unchanged - the stored list id is not refreshed to the observed one as
claimed. -/
theorem c8_counterexample :
    (stepCard ["done"] "b" [("l1", "Done"), ("l0", "Doing")]
        [("b_c1", ⟨true, "lOld", []⟩)]
        ⟨"c1", "l1", [], none, none, none⟩) =
      ([("b_c1", ⟨true, "lOld", []⟩)], []) ∧
    "lOld" ≠ "l1" := by
  constructor
  · decide
  · decide

/-- C8 amended: for a card whose prior state is completed and which is
observed still in a done-classified list, the change detector emits no
event and leaves the stored state entirely unchanged (in particular the
list id is not refreshed). -/
theorem c8_amended_no_event_no_refresh
    (dn : List String) (b : String) (ln : List (String × String))
    (states : StateMap) (c : Card) (st : CardState)
    (hst : getState (cardKey b c.cardId) states = some st)
    (hc : st.completed = true)
    (hd : nameMatches dn (listNameOf ln c.idList) = true) :
    stepCard dn b ln states c = (states, []) :=
  stepCard_done_completed dn b ln states c st hst hc hd

theorem c8_witness :
    stepCard ["done"] "b" [("l1", "Done")]
      [("b_c1", ⟨true, "lOld", ["A"]⟩)]
      ⟨"c1", "l1", [], none, none, none⟩ =
      ([("b_c1", ⟨true, "lOld", ["A"]⟩)], []) :=
  c8_amended_no_event_no_refresh ["done"] "b" [("l1", "Done")]
    [("b_c1", ⟨true, "lOld", ["A"]⟩)]
    ⟨"c1", "l1", [], none, none, none⟩ ⟨true, "lOld", ["A"]⟩
    (by decide) rfl (by decide)

/-- C9 counterexample: a card whose stored state is completed with member
set containing only A, observed in a non-done list with members A and B,
does emit an event at that poll (a MembersAssigned notification for B),
contradicting the claim that no event is emitted. -/
theorem c9_counterexample :
    (stepCard ["done"] "b" [("l1", "Done"), ("l0", "Doing")]
        [("b_c1", ⟨true, "l1", ["A"]⟩)]
        ⟨"c1", "l0", ["A", "B"], none, none, none⟩).2 =
      [Event.membersAssigned "c1" ["B"]] := by decide

/-- C9 amended: for a card whose prior state is completed but which is
observed in a non-done list, no CardCompleted event is emitted at that
poll (though a MembersAssigned event fires iff the observed member set
minus the stored member set is non-empty); the state is overwritten to
not-completed with the observed member set and list id, so a later
observation of the card in a done-classified list emits a fresh
CardCompleted event. -/
theorem c9_amended_reopen
    (dn : List String) (b : String) (ln : List (String × String))
    (states : StateMap) (c : Card) (st : CardState)
    (hst : getState (cardKey b c.cardId) states = some st)
    (hc : st.completed = true)
    (hnd : nameMatches dn (listNameOf ln c.idList) = false) :
    (∀ i, Event.cardCompleted i ∉ (stepCard dn b ln states c).2) ∧
    getState (cardKey b c.cardId) (stepCard dn b ln states c).1 =
      some ⟨false, c.idList, c.memberIds.dedup⟩ ∧
    ((stepCard dn b ln states c).2 ≠ [] ↔
      ∃ m, m ∈ c.memberIds ∧ m ∉ st.members) ∧
    ∀ c2 : Card, c2.cardId = c.cardId →
      nameMatches dn (listNameOf ln c2.idList) = true →
      (stepCard dn b ln (stepCard dn b ln states c).1 c2).2 =
        [Event.cardCompleted c2.cardId] := by
  have hstep := stepCard_not_done dn b ln states c hnd
  refine ⟨?_, ?_, ?_, ?_⟩
  · intro i hi
    rw [hstep, hst] at hi
    simp only [] at hi
    by_cases hemp : (c.memberIds.dedup.filter
        (fun m => !(st.members.contains m))).isEmpty = true
    · rw [if_pos hemp] at hi
      simp at hi
    · rw [if_neg hemp] at hi
      unfold notifyMemberAssignments at hi
      simp only [] at hi
      by_cases hemp2 : (c.memberIds.filter (fun i =>
          (c.memberIds.dedup.filter
            (fun m => !(st.members.contains m))).contains i)).isEmpty = true
      · rw [if_pos hemp2] at hi
        simp at hi
      · rw [if_neg hemp2] at hi
        simp at hi
  · rw [hstep]
    exact getState_setState_self _ _ _
  · rw [hstep, hst]
    simp only []
    by_cases hemp : (c.memberIds.dedup.filter
        (fun m => !(st.members.contains m))).isEmpty = true
    · rw [if_pos hemp]
      have hnil := List.isEmpty_iff.mp hemp
      simp only [ne_eq, not_true_eq_false, false_iff]
      rintro ⟨m, hm1, hm2⟩
      have : m ∈ c.memberIds.dedup.filter (fun x => !(st.members.contains x)) :=
        (mem_newIds_iff c st.members m).mpr ⟨hm1, hm2⟩
      rw [hnil] at this
      simp at this
    · rw [if_neg hemp]
      have hne : c.memberIds.dedup.filter
          (fun m => !(st.members.contains m)) ≠ [] := by
        intro hh
        rw [hh] at hemp
        simp at hemp
      obtain ⟨m0, hm0⟩ := List.exists_mem_of_ne_nil _ hne
      have hm0' := (mem_newIds_iff c st.members m0).mp hm0
      unfold notifyMemberAssignments
      simp only []
      have hnm : (c.memberIds.filter (fun i =>
          (c.memberIds.dedup.filter
            (fun m => !(st.members.contains m))).contains i)) ≠ [] := by
        intro hh
        have : m0 ∈ c.memberIds.filter (fun i =>
            (c.memberIds.dedup.filter
              (fun m => !(st.members.contains m))).contains i) := by
          rw [List.mem_filter]
          refine ⟨hm0'.1, ?_⟩
          simpa using hm0
        rw [hh] at this
        simp at this
      rw [if_neg (by simpa [List.isEmpty_iff] using hnm)]
      simp only [ne_eq, List.cons_ne_self]
      constructor
      · intro _
        exact ⟨m0, hm0'⟩
      · intro _
        simp
  · intro c2 hid hd2
    have hkey : cardKey b c2.cardId = cardKey b c.cardId := by rw [hid]
    have hget : getState (cardKey b c2.cardId) (stepCard dn b ln states c).1 =
        some ⟨false, c.idList, c.memberIds.dedup⟩ := by
      rw [hkey, hstep]
      exact getState_setState_self _ _ _
    rw [stepCard_done_transition dn b ln (stepCard dn b ln states c).1 c2
      ⟨false, c.idList, c.memberIds.dedup⟩ hget rfl hd2]

theorem c9_witness :
    (∀ i, Event.cardCompleted i ∉
      (stepCard ["done"] "b" [("l1", "Done"), ("l0", "Doing")]
        [("b_c1", ⟨true, "l1", ["A"]⟩)]
        ⟨"c1", "l0", ["A", "B"], none, none, none⟩).2) ∧
    getState "b_c1"
      (stepCard ["done"] "b" [("l1", "Done"), ("l0", "Doing")]
        [("b_c1", ⟨true, "l1", ["A"]⟩)]
        ⟨"c1", "l0", ["A", "B"], none, none, none⟩).1 =
      some ⟨false, "l0", ["A", "B"]⟩ ∧
    ((stepCard ["done"] "b" [("l1", "Done"), ("l0", "Doing")]
        [("b_c1", ⟨true, "l1", ["A"]⟩)]
        ⟨"c1", "l0", ["A", "B"], none, none, none⟩).2 ≠ [] ↔
      ∃ m, m ∈ ["A", "B"] ∧ m ∉ ["A"]) ∧
    ∀ c2 : Card, c2.cardId = "c1" →
      nameMatches ["done"]
        (listNameOf [("l1", "Done"), ("l0", "Doing")] c2.idList) = true →
      (stepCard ["done"] "b" [("l1", "Done"), ("l0", "Doing")]
        (stepCard ["done"] "b" [("l1", "Done"), ("l0", "Doing")]
          [("b_c1", ⟨true, "l1", ["A"]⟩)]
          ⟨"c1", "l0", ["A", "B"], none, none, none⟩).1 c2).2 =
        [Event.cardCompleted c2.cardId] :=
  c9_amended_reopen ["done"] "b" [("l1", "Done"), ("l0", "Doing")]
    [("b_c1", ⟨true, "l1", ["A"]⟩)]
    ⟨"c1", "l0", ["A", "B"], none, none, none⟩ ⟨true, "l1", ["A"]⟩
    (by decide) rfl (by decide)

/-- C10: add_pinned_message is idempotent on the chat-id/message-id key - a
call for a pair that already has a record returns the stored document
unchanged, appending nothing. -/
theorem c10_add_pinned_idempotent (now : Nat) (msgs : List PinRecord)
    (c : String) (i : Nat) (u : String)
    (h : ∃ m ∈ msgs, m.chatId = c ∧ m.messageId = i) :
    addPinnedMessage now msgs c i u = msgs := by
  unfold addPinnedMessage
  have hdup : msgs.any (fun m => m.chatId == c && m.messageId == i) = true := by
    rcases h with ⟨m, hm, h1, h2⟩
    exact List.any_eq_true.mpr ⟨m, hm, by simp [h1, h2]⟩
  rw [if_pos hdup]

theorem c10_witness :
    addPinnedMessage 5 [⟨"c", 1, 0, "u"⟩] "c" 1 "u2" = [⟨"c", 1, 0, "u"⟩] :=
  c10_add_pinned_idempotent 5 [⟨"c", 1, 0, "u"⟩] "c" 1 "u2"
    ⟨⟨"c", 1, 0, "u"⟩, by simp, rfl, rfl⟩
